import Mathlib

set_option maxRecDepth 2000

/-
Verification development for the ProyectoMovilidad route-reconstruction and
trace-classification engine.

The Python sources are shallowly embedded:
  * `PuntosConexion.py`  -> `Mov.checar_conexion`, `Mov.checar_conexion_distancia`
  * `clasificator.py`    -> `Mov.classify` (classify_route_variant)
  * `Functions/points.py`-> `Mov.group_points`, `Mov.group_within_intervals`,
                            `Mov.closest_points`, `Mov.clean_gps_data`
  * `RutasFinales.py`    -> `Mov.processWay` (the per-direction core of process_route)

Floating point coordinates and distances are modelled over ℚ; the library
function `geopy.distance.geodesic(..).meters` and the shapely
`geometry.distance` are modelled as explicit function parameters, since the
code under scrutiny only compares and selects among their values.  Python
sets are modelled as first-seen-deduplicated lists (`dedupFS`); iteration
order of hash sets is irrelevant for every property proved below.
-/

namespace Mov

/-- Empty string constant (used where the Python code passes a string literal). -/
def emptyStr : String := ""

/-- Model of Python `str.lower()` (character-wise ASCII lowering; the street
names handled by the code are plain lower-case-ASCII-plus-accents strings,
and accented characters pass through unchanged on both sides). -/
def pyLower (s : String) : String := ⟨s.data.map Char.toLower⟩

/-- Model of `abs` on rationals, written with an explicit comparison. -/
def ratAbs (x : ℚ) : ℚ := if x < 0 then -x else x

/-- First-seen deduplication, auxiliary: drops elements already in `seen`.
Models iteration over a Python `set` built from a list. -/
def dedupFSAux {α : Type} [DecidableEq α] : List α → List α → List α
  | _, [] => []
  | seen, x :: xs => if x ∈ seen then dedupFSAux seen xs else x :: dedupFSAux (x :: seen) xs

/-- First-seen deduplication of a list (model of a Python `set`). -/
def dedupFS {α : Type} [DecidableEq α] (l : List α) : List α := dedupFSAux [] l

theorem mem_dedupFSAux {α : Type} [DecidableEq α] :
    ∀ (l seen : List α) (a : α), a ∈ dedupFSAux seen l ↔ a ∈ l ∧ a ∉ seen := by
  intro l
  induction l with
  | nil => intro seen a; simp [dedupFSAux]
  | cons x xs ih =>
    intro seen a
    by_cases hx : x ∈ seen
    · simp only [dedupFSAux, if_pos hx]
      rw [ih]
      constructor
      · rintro ⟨h1, h2⟩
        exact ⟨List.mem_cons_of_mem _ h1, h2⟩
      · rintro ⟨h1, h2⟩
        rcases List.mem_cons.mp h1 with rfl | h1
        · exact absurd hx h2
        · exact ⟨h1, h2⟩
    · simp only [dedupFSAux, if_neg hx]
      constructor
      · intro h
        rcases List.mem_cons.mp h with rfl | h
        · exact ⟨List.mem_cons_self _ _, hx⟩
        · obtain ⟨h1, h2⟩ := (ih (x :: seen) a).mp h
          exact ⟨List.mem_cons_of_mem _ h1, fun hc => h2 (List.mem_cons_of_mem _ hc)⟩
      · rintro ⟨h1, h2⟩
        rcases List.mem_cons.mp h1 with rfl | h1
        · exact List.mem_cons_self _ _
        · by_cases hax : a = x
          · exact hax ▸ List.mem_cons_self _ _
          · exact List.mem_cons_of_mem _ ((ih (x :: seen) a).mpr
              ⟨h1, fun hc => (List.mem_cons.mp hc).elim hax h2⟩)

theorem mem_dedupFS {α : Type} [DecidableEq α] {l : List α} {a : α} :
    a ∈ dedupFS l ↔ a ∈ l := by
  simp [dedupFS, mem_dedupFSAux]

theorem nodup_dedupFSAux {α : Type} [DecidableEq α] :
    ∀ (l seen : List α), (dedupFSAux seen l).Nodup := by
  intro l
  induction l with
  | nil => intro seen; simp [dedupFSAux]
  | cons x xs ih =>
    intro seen
    by_cases hx : x ∈ seen
    · simpa [dedupFSAux, if_pos hx] using ih seen
    · simp only [dedupFSAux, if_neg hx, List.nodup_cons]
      refine ⟨fun hc => ?_, ih (x :: seen)⟩
      exact ((mem_dedupFSAux xs (x :: seen) x).mp hc).2 (List.mem_cons_self x seen)

theorem nodup_dedupFS {α : Type} [DecidableEq α] (l : List α) : (dedupFS l).Nodup :=
  nodup_dedupFSAux l []

theorem dedupFS_pair {α : Type} [DecidableEq α] {a b : α} (h : b ≠ a) :
    dedupFS [a, b] = [a, b] := by
  simp [dedupFS, dedupFSAux, h]

/-- First-strictly-smaller minimum selection over ℚ keys, starting from `b`.
Models both `min(..., key=...)` in Python (which returns the first element
attaining the minimal key) and `pandas.idxmin` / `numpy.argmin` (which
return the first position attaining the minimum). -/
def firstMinAux {γ : Type} (f : γ → ℚ) : γ → List γ → γ
  | b, [] => b
  | b, c :: cs => firstMinAux f (if f c < f b then c else b) cs

theorem firstMinAux_mem {γ : Type} (f : γ → ℚ) :
    ∀ (l : List γ) (b : γ), firstMinAux f b l ∈ b :: l := by
  intro l
  induction l with
  | nil => intro b; simp [firstMinAux]
  | cons c cs ih =>
    intro b
    by_cases hc : f c < f b
    · simp only [firstMinAux, if_pos hc]
      exact List.mem_cons_of_mem _ (ih c)
    · simp only [firstMinAux, if_neg hc]
      rcases List.mem_cons.mp (ih b) with h | h
      · rw [h]; exact List.mem_cons_self _ _
      · exact List.mem_cons_of_mem _ (List.mem_cons_of_mem _ h)

theorem firstMinAux_spec {γ : Type} (f : γ → ℚ) :
    ∀ (l : List γ) (b : γ),
      (firstMinAux f b l = b ∧ ∀ c ∈ l, f b ≤ f c) ∨
      (∃ i : Nat, l[i]? = some (firstMinAux f b l) ∧ f (firstMinAux f b l) < f b ∧
        (∀ c ∈ l, f (firstMinAux f b l) ≤ f c) ∧
        ∀ (j : Nat) (c : γ), j < i → l[j]? = some c → f (firstMinAux f b l) < f c) := by
  intro l
  induction l with
  | nil => intro b; exact Or.inl ⟨rfl, by simp⟩
  | cons c cs ih =>
    intro b
    by_cases hc : f c < f b
    · simp only [firstMinAux, if_pos hc]
      rcases ih c with ⟨heq, hle⟩ | ⟨i, hi, hlt, hle, hfirst⟩
      · refine Or.inr ⟨0, ?_, ?_, ?_, ?_⟩
        · rw [heq]; simp
        · rw [heq]; exact hc
        · intro x hx
          rcases List.mem_cons.mp hx with rfl | hx
          · rw [heq]
          · rw [heq]; exact hle x hx
        · intro j x hj _; omega
      · refine Or.inr ⟨i + 1, ?_, ?_, ?_, ?_⟩
        · simpa using hi
        · exact lt_trans hlt hc
        · intro x hx
          rcases List.mem_cons.mp hx with rfl | hx
          · exact le_of_lt hlt
          · exact hle x hx
        · intro j x hj hx
          cases j with
          | zero =>
            simp only [List.getElem?_cons_zero, Option.some.injEq] at hx
            exact hx ▸ hlt
          | succ j' =>
            simp only [List.getElem?_cons_succ] at hx
            exact hfirst j' x (by omega) hx
    · simp only [firstMinAux, if_neg hc]
      push_neg at hc
      rcases ih b with ⟨heq, hle⟩ | ⟨i, hi, hlt, hle, hfirst⟩
      · refine Or.inl ⟨heq, ?_⟩
        intro x hx
        rcases List.mem_cons.mp hx with rfl | hx
        · exact hc
        · exact hle x hx
      · refine Or.inr ⟨i + 1, ?_, hlt, ?_, ?_⟩
        · simpa using hi
        · intro x hx
          rcases List.mem_cons.mp hx with rfl | hx
          · exact le_of_lt (lt_of_lt_of_le hlt hc)
          · exact hle x hx
        · intro j x hj hx
          cases j with
          | zero =>
            simp only [List.getElem?_cons_zero, Option.some.injEq] at hx
            exact hx ▸ lt_of_lt_of_le hlt hc
          | succ j' =>
            simp only [List.getElem?_cons_succ] at hx
            exact hfirst j' x (by omega) hx

/-- Sorted insertion into an ascending list of rationals. -/
def insertRat (x : ℚ) : List ℚ → List ℚ
  | [] => [ x ]
  | y :: ys => if x ≤ y then x :: y :: ys else y :: insertRat x ys

/-- Ascending insertion sort; models Python `sorted(...)` on distance values. -/
def sortRats (l : List ℚ) : List ℚ := l.foldr insertRat []

theorem length_insertRat (x : ℚ) : ∀ l : List ℚ, (insertRat x l).length = l.length + 1 := by
  intro l
  induction l with
  | nil => simp [insertRat]
  | cons y ys ih =>
    by_cases h : x ≤ y
    · simp [insertRat, if_pos h]
    · simp [insertRat, if_neg h, ih]

theorem length_sortRats (l : List ℚ) : (sortRats l).length = l.length := by
  induction l with
  | nil => simp [sortRats]
  | cons y ys ih => simp [sortRats, List.foldr_cons, length_insertRat]; simpa [sortRats] using ih

/-- A street-graph edge as iterated by `graph.edges(data=True)` in
`PuntosConexion.py`: two endpoint node ids and the (possibly empty) list of
street-name labels of the `name` attribute.  A plain-string `name` attribute
is modelled as a one-element list, mirroring the normalisation done by the
code itself. -/
structure SEdge where
  u : Nat
  v : Nat
  names : List String

/-- The street graph as used by `PuntosConexion.py`: the edge list and the
node coordinates `(y, x)` (latitude, longitude) of `graph.nodes[n]`. -/
structure SGraph where
  edges : List SEdge
  coord : Nat → ℚ × ℚ

/-- Node set incident to edges labelled with street `street`
(`nodes_1` / `nodes_2` in `checar_conexion`); the Python `set` is modelled
as a first-seen-deduplicated list. -/
def nodesWith (g : SGraph) (street : String) : List Nat :=
  dedupFS (((g.edges.filter (fun e =>
    decide (e.names ≠ [] ∧ street ∈ e.names.map pyLower))).map
      (fun e => (e.u, e.v))).flatMap (fun pr => [ pr.1, pr.2 ]))

/-- Embedding of `checar_conexion` from `PuntosConexion.py`: returns the
direct intersection triples together with the two incident-node sets. -/
def checar_conexion (street1 street2 : String) (g : SGraph) :
    List (Nat × String × String) × List Nat × List Nat :=
  if street2 = street1 then ([], [], [])
  else
    let nodes1 := nodesWith g street1
    let nodes2 := nodesWith g street2
    ((nodes1.filter (fun n => decide (n ∈ nodes2))).map (fun n => (n, street1, street2)),
      nodes1, nodes2)

/-- The `distances` list built in `checar_conexion_distancia`: for every
node pair `(n1, n2)` across the two sets the geodesic distance is recorded
twice, once tagged with `n1` and once tagged with `n2`, exactly as the
Python loop appends `(distance, n1)` and `(distance, n2)`. -/
def pairDistances (geo : ℚ × ℚ → ℚ × ℚ → ℚ) (g : SGraph) (nodes1 nodes2 : List Nat) :
    List (ℚ × Nat) :=
  nodes1.flatMap (fun a => nodes2.flatMap (fun b =>
    [ (geo (g.coord a) (g.coord b), a), (geo (g.coord a) (g.coord b), b) ]))

/-- Python `sorted(set(distance for distance, _ in distances))`. -/
def uniqueDistances (distances : List (ℚ × Nat)) : List ℚ :=
  sortRats (dedupFS (distances.map (fun t => t.1)))

/-- Embedding of `checar_conexion_distancia` from `PuntosConexion.py`.
`geo` models `geodesic(point1, point2).meters`. -/
def checar_conexion_distancia (geo : ℚ × ℚ → ℚ × ℚ → ℚ) (street1 street2 : String)
    (g : SGraph) : List (Nat × String × String) :=
  let cc := checar_conexion street1 street2 g
  if cc.1.isEmpty = false then cc.1
  else
    let distances := pairDistances geo g cc.2.1 cc.2.2
    let unique := uniqueDistances distances
    if unique.length < 2 then []
    else
      let small1 := unique.getD 0 0
      let small2 := unique.getD 1 0
      (distances.filter (fun t => decide (t.1 = small1 ∨ t.1 = small2))).filterMap
        (fun t => if t.1 ≤ 350 then some (t.2, street1, street2) else none)

theorem isEmpty_false_of_ne_nil {α : Type} {l : List α} (h : l ≠ []) : l.isEmpty = false := by
  cases l with
  | nil => exact absurd rfl h
  | cons a t => rfl

theorem checar_conexion_eq (street1 street2 : String) (g : SGraph) (hne : street2 ≠ street1) :
    checar_conexion street1 street2 g =
      (((nodesWith g street1).filter (fun n => decide (n ∈ nodesWith g street2))).map
          (fun n => (n, street1, street2)),
        nodesWith g street1, nodesWith g street2) := by
  simp [checar_conexion, if_neg hne]

/-- C8: for distinct street names whose incident-node sets intersect, every
shared node is emitted as a direct intersection, and the result of
`checar_conexion_distancia` is exactly the direct-intersection list of
`checar_conexion` — the geodesic near-miss branch never executes. -/
theorem direct_intersection_dominates (g : SGraph) (geo : ℚ × ℚ → ℚ × ℚ → ℚ)
    (s1 s2 : String) (n : Nat) (hne : s2 ≠ s1)
    (h1 : n ∈ nodesWith g s1) (h2 : n ∈ nodesWith g s2) :
    (n, s1, s2) ∈ checar_conexion_distancia geo s1 s2 g ∧
    checar_conexion_distancia geo s1 s2 g = (checar_conexion s1 s2 g).1 := by
  have hmem : (n, s1, s2) ∈ (checar_conexion s1 s2 g).1 := by
    rw [checar_conexion_eq s1 s2 g hne]
    exact List.mem_map_of_mem _ (List.mem_filter.mpr ⟨h1, by simpa using h2⟩)
  have hisE : (checar_conexion s1 s2 g).1.isEmpty = false :=
    isEmpty_false_of_ne_nil (List.ne_nil_of_mem hmem)
  have hccd : checar_conexion_distancia geo s1 s2 g = (checar_conexion s1 s2 g).1 := by
    simp only [checar_conexion_distancia]
    rw [if_pos hisE]
  exact ⟨hccd ▸ hmem, hccd⟩

/-- C10: for distinct street names with disjoint incident-node sets, when
fewer than two distinct geodesic distance values exist between the two node
sets, `checar_conexion_distancia` returns no connections at all. -/
theorem single_distance_no_connection (g : SGraph) (geo : ℚ × ℚ → ℚ × ℚ → ℚ)
    (s1 s2 : String) (hne : s2 ≠ s1)
    (hdisj : ∀ m : Nat, m ∈ nodesWith g s1 → m ∉ nodesWith g s2)
    (hu : (uniqueDistances (pairDistances geo g (nodesWith g s1) (nodesWith g s2))).length < 2) :
    checar_conexion_distancia geo s1 s2 g = [] := by
  have hfil : (nodesWith g s1).filter (fun m => decide (m ∈ nodesWith g s2)) = [] := by
    rw [List.filter_eq_nil_iff]
    intro a ha
    simpa using hdisj a ha
  simp only [checar_conexion_distancia, checar_conexion_eq s1 s2 g hne, hfil,
    List.map_nil, List.isEmpty_nil]
  rw [if_neg (by simp)]
  rw [if_pos hu]

/-- The candidate pool of tagged distances between the incident-node sets of
two street names (abbreviation for statements about the near-miss branch). -/
def nearPool (geo : ℚ × ℚ → ℚ × ℚ → ℚ) (g : SGraph) (s1 s2 : String) : List (ℚ × Nat) :=
  pairDistances geo g (nodesWith g s1) (nodesWith g s2)

/-- The sorted distinct distance values of the candidate pool. -/
def nearUnique (geo : ℚ × ℚ → ℚ × ℚ → ℚ) (g : SGraph) (s1 s2 : String) : List ℚ :=
  uniqueDistances (nearPool geo g s1 s2)

/-- C2 (amended): in the near-miss branch the 350 m threshold is applied to
each achieved distance separately.  A node is emitted iff it carries one of
the two smallest distinct distances and that distance itself is ≤ 350 m; in
particular the nodes achieving the smallest distance are emitted even when
the second-smallest distance exceeds the threshold. -/
theorem near_miss_per_distance_threshold (g : SGraph) (geo : ℚ × ℚ → ℚ × ℚ → ℚ)
    (s1 s2 : String) (hne : s2 ≠ s1)
    (hdisj : ∀ m : Nat, m ∈ nodesWith g s1 → m ∉ nodesWith g s2)
    (hlen : 2 ≤ (nearUnique geo g s1 s2).length) :
    (∀ d n, (d, n) ∈ nearPool geo g s1 s2 →
      (d = (nearUnique geo g s1 s2).getD 0 0 ∨ d = (nearUnique geo g s1 s2).getD 1 0) →
      d ≤ 350 → (n, s1, s2) ∈ checar_conexion_distancia geo s1 s2 g) ∧
    (∀ n t1 t2, (n, t1, t2) ∈ checar_conexion_distancia geo s1 s2 g →
      t1 = s1 ∧ t2 = s2 ∧ ∃ d, (d, n) ∈ nearPool geo g s1 s2 ∧
        (d = (nearUnique geo g s1 s2).getD 0 0 ∨ d = (nearUnique geo g s1 s2).getD 1 0) ∧
        d ≤ 350) := by
  have hfil : (nodesWith g s1).filter (fun m => decide (m ∈ nodesWith g s2)) = [] := by
    rw [List.filter_eq_nil_iff]
    intro a ha
    simpa using hdisj a ha
  have hccd : checar_conexion_distancia geo s1 s2 g =
      ((nearPool geo g s1 s2).filter (fun t =>
        decide (t.1 = (nearUnique geo g s1 s2).getD 0 0 ∨
                t.1 = (nearUnique geo g s1 s2).getD 1 0))).filterMap
        (fun t => if t.1 ≤ 350 then some (t.2, s1, s2) else none) := by
    simp only [checar_conexion_distancia, checar_conexion_eq s1 s2 g hne, hfil,
      List.map_nil, List.isEmpty_nil]
    rw [if_neg (by simp)]
    rw [if_neg (by simp only [nearUnique, nearPool] at hlen; omega)]
    rfl
  constructor
  · intro d n hmem hsmall h350
    rw [hccd]
    refine List.mem_filterMap.mpr ⟨(d, n), List.mem_filter.mpr ⟨hmem, ?_⟩, ?_⟩
    · simpa using hsmall
    · simp [if_pos h350]
  · intro n t1 t2 hmem
    rw [hccd] at hmem
    obtain ⟨t, ht, heq⟩ := List.mem_filterMap.mp hmem
    obtain ⟨td, tn⟩ := t
    obtain ⟨hpool, hcond⟩ := List.mem_filter.mp ht
    by_cases h350 : td ≤ 350
    · rw [if_pos h350] at heq
      have h := Option.some.inj heq
      simp only [Prod.mk.injEq] at h
      obtain ⟨hn, hs1, hs2⟩ := h
      refine ⟨hs1.symm, hs2.symm, td, ?_, ?_, h350⟩
      · rwa [hn] at hpool
      · simpa using hcond
    · rw [if_neg h350] at heq
      exact absurd heq (by simp)

/-- Street name constant used by the concrete connection-search instances. -/
def sA : String := "a"

/-- Street name constant used by the concrete connection-search instances. -/
def sB : String := "b"

/-- Concrete graph: street `a` on edge (1,2), street `b` on edge (3,4);
the two incident-node sets are disjoint. -/
def g2 : SGraph := ⟨[ ⟨1, 2, [ sA ]⟩, ⟨3, 4, [ sB ]⟩ ], fun n => ((n : ℚ), 0)⟩

/-- Concrete stand-in for the geodesic meter distance on `g2`: the node pair
(1,3) is 100 m apart, every other cross pair is 400 m apart. -/
def geoTab : ℚ × ℚ → ℚ × ℚ → ℚ := fun a b =>
  if (a.1 = 1 ∧ b.1 = 3) ∨ (a.1 = 3 ∧ b.1 = 1) then 100 else 400

theorem g2_pool : pairDistances geoTab g2 [ 1, 2 ] [ 3, 4 ] =
    [ (100, 1), (100, 3), (400, 1), (400, 4), (400, 2), (400, 3), (400, 2), (400, 4) ] := by
  norm_num [pairDistances, geoTab, g2, List.flatMap_cons, List.flatMap_nil]

theorem g2_unique : uniqueDistances (pairDistances geoTab g2 [ 1, 2 ] [ 3, 4 ]) =
    [ 100, 400 ] := by
  rw [g2_pool]
  norm_num [uniqueDistances, dedupFS, dedupFSAux, sortRats, insertRat]

/-- C2 (counterexample): with smallest distinct distances 100 and 400, the
second-smallest exceeds the 350 m threshold, yet `checar_conexion_distancia`
still emits the nodes achieving the smallest distance — the claim that
near-miss connections are emitted only when BOTH of the two smallest
distances are ≤ 350 m is false on the code. -/
theorem near_miss_single_threshold_cex :
    checar_conexion_distancia geoTab sA sB g2 = [ (1, sA, sB), (3, sA, sB) ] ∧
    (nearUnique geoTab g2 sA sB).getD 1 0 = 400 ∧ ¬ ((400 : ℚ) ≤ 350) := by
  have hA : nodesWith g2 sA = [ 1, 2 ] := by decide
  have hB : nodesWith g2 sB = [ 3, 4 ] := by decide
  have hcc : checar_conexion sA sB g2 = ([], [ 1, 2 ], [ 3, 4 ]) := by
    rw [checar_conexion_eq sA sB g2 (by decide), hA, hB]
    decide
  refine ⟨?_, ?_, by norm_num⟩
  · simp only [checar_conexion_distancia, hcc, List.isEmpty_nil, g2_unique]
    rw [if_neg (by simp)]
    rw [if_neg (by norm_num)]
    rw [g2_pool]
    norm_num [List.filter_cons, List.filterMap_cons]
  · simp only [nearUnique, nearPool, hA, hB, g2_unique]
    norm_num

/-- C2 witness for the amended per-distance-threshold statement, at the same
concrete instance: node 1 achieves the smallest distance 100 ≤ 350 and is
emitted although the second-smallest distance is 400 > 350. -/
theorem near_miss_per_distance_threshold_witness :
    (∀ m : Nat, m ∈ nodesWith g2 sA → m ∉ nodesWith g2 sB) ∧
    2 ≤ (nearUnique geoTab g2 sA sB).length ∧
    (1, sA, sB) ∈ checar_conexion_distancia geoTab sA sB g2 := by
  have hA : nodesWith g2 sA = [ 1, 2 ] := by decide
  have hB : nodesWith g2 sB = [ 3, 4 ] := by decide
  have hlen : 2 ≤ (nearUnique geoTab g2 sA sB).length := by
    simp only [nearUnique, nearPool, hA, hB, g2_unique]
    norm_num
  have hsm : (100 : ℚ) = (nearUnique geoTab g2 sA sB).getD 0 0 ∨
      (100 : ℚ) = (nearUnique geoTab g2 sA sB).getD 1 0 := by
    simp only [nearUnique, nearPool, hA, hB, g2_unique]
    norm_num
  have hpool : ((100 : ℚ), 1) ∈ nearPool geoTab g2 sA sB := by
    simp only [nearPool, hA, hB, g2_pool]
    norm_num
  exact ⟨by decide, hlen,
    (near_miss_per_distance_threshold g2 geoTab sA sB (by decide) (by decide) hlen).1
      100 1 hpool hsm (by norm_num)⟩

/-- Street name constant for the spec scenario graph. -/
def sReforma : String := "reforma"

/-- Street name constant for the spec scenario graph. -/
def sJuarez : String := "juarez"

/-- Concrete graph of the spec scenario: street `reforma` on edge (1,2) and
street `juarez` on edge (2,3); node 2 is shared. -/
def gRJ : SGraph := ⟨[ ⟨1, 2, [ sReforma ]⟩, ⟨2, 3, [ sJuarez ]⟩ ], fun n => ((n : ℚ), 0)⟩

/-- C8 witness: in the `reforma`/`juarez` graph the shared node 2 is emitted
as a direct intersection and the distance branch is skipped. -/
theorem direct_intersection_dominates_witness :
    sJuarez ≠ sReforma ∧ 2 ∈ nodesWith gRJ sReforma ∧ 2 ∈ nodesWith gRJ sJuarez ∧
    (2, sReforma, sJuarez) ∈ checar_conexion_distancia geoTab sReforma sJuarez gRJ ∧
    checar_conexion_distancia geoTab sReforma sJuarez gRJ =
      (checar_conexion sReforma sJuarez gRJ).1 :=
  ⟨by decide, by decide, by decide,
    (direct_intersection_dominates gRJ geoTab sReforma sJuarez 2 (by decide) (by decide)
      (by decide)).1,
    (direct_intersection_dominates gRJ geoTab sReforma sJuarez 2 (by decide) (by decide)
      (by decide)).2⟩

/-- Concrete graph for the single-distance case: streets `a` on edge (1,2)
and `b` on edge (3,4), with all four cross distances equal. -/
def g10 : SGraph := ⟨[ ⟨1, 2, [ sA ]⟩, ⟨3, 4, [ sB ]⟩ ], fun n =>
  if n = 1 then (0, 0) else if n = 2 then (2, 0) else if n = 3 then (1, 1) else (1, -1)⟩

/-- Manhattan-style concrete stand-in for the geodesic distance. -/
def geoMan : ℚ × ℚ → ℚ × ℚ → ℚ := fun a b =>
  ratAbs (a.1 - b.1) + ratAbs (a.2 - b.2)

theorem g10_unique :
    uniqueDistances (pairDistances geoMan g10 (nodesWith g10 sA) (nodesWith g10 sB)) =
      [ 2 ] := by
  have hA : nodesWith g10 sA = [ 1, 2 ] := by decide
  have hB : nodesWith g10 sB = [ 3, 4 ] := by decide
  rw [hA, hB]
  norm_num [pairDistances, geoMan, g10, ratAbs, uniqueDistances, dedupFS, dedupFSAux,
    sortRats, insertRat, List.flatMap_cons, List.flatMap_nil]

/-- C10 witness: all cross distances equal 2, so only one distinct distance
value exists; the single distance is far below 350 m, yet no connection is
returned. -/
theorem single_distance_no_connection_witness :
    (∀ m : Nat, m ∈ nodesWith g10 sA → m ∉ nodesWith g10 sB) ∧
    (uniqueDistances (pairDistances geoMan g10 (nodesWith g10 sA) (nodesWith g10 sB))).length < 2 ∧
    (uniqueDistances (pairDistances geoMan g10 (nodesWith g10 sA)
      (nodesWith g10 sB))).getD 0 0 ≤ 350 ∧
    checar_conexion_distancia geoMan sA sB g10 = [] :=
  ⟨by decide, by rw [g10_unique]; norm_num, by rw [g10_unique]; norm_num,
    single_distance_no_connection g10 geoMan sA sB (by decide) (by decide)
      (by rw [g10_unique]; norm_num)⟩

/-- A GPS fix as consumed by `classify_route_variant` in `clasificator.py`:
its coordinates and the `Route` column value. -/
structure TracePoint where
  lat : ℚ
  lon : ℚ
  route : String
deriving DecidableEq

/-- Failure modes of `classify_route_variant`: the mixed-route-id guard
(`print` + `return None` in the code, `AmbiguousRouteInput` in the spec's
taxonomy) and the `ValueError` that Python's `min` raises on an empty
candidate set. -/
inductive ClassifyError
  | ambiguousRouteInput
  | noCandidates
deriving DecidableEq

/-- Summed point-to-geometry distance of one candidate geometry over the
whole trace (`total_distance` in `classify_route_variant`); the shapely
`geometry.distance` is modelled by the function parameter `dist`. -/
def totalDist {γ : Type} (dist : γ → TracePoint → ℚ) (trace : List TracePoint) (c : γ) : ℚ :=
  (trace.map (dist c)).sum

/-- Embedding of `classify_route_variant` from `clasificator.py`: guard on
the number of distinct route ids, then `min(total_distances, key=...)` over
the candidate geometries in iteration order (Python's `min` returns the
first key attaining the minimal value); returns the winning candidate and
its summed distance. -/
def classify {γ : Type} (dist : γ → TracePoint → ℚ) (trace : List TracePoint)
    (cands : List γ) : Except ClassifyError (γ × ℚ) :=
  if 1 < (dedupFS (trace.map (fun pt => pt.route))).length then .error .ambiguousRouteInput
  else
    match cands with
    | [] => .error .noCandidates
    | c0 :: cs =>
      .ok (firstMinAux (totalDist dist trace) c0 cs,
        totalDist dist trace (firstMinAux (totalDist dist trace) c0 cs))

/-- C5: for a non-empty single-route trace and a non-empty candidate list,
`classify` returns the candidate with minimal summed point distance, and on
ties the first one in iteration order (every candidate strictly earlier
than the winner has a strictly larger sum). -/
theorem classify_first_argmin {γ : Type} (dist : γ → TracePoint → ℚ)
    (trace : List TracePoint) (cands : List γ)
    (htr : trace ≠ [])
    (hroute : (dedupFS (trace.map (fun pt => pt.route))).length ≤ 1)
    (hc : cands ≠ []) :
    ∃ b : γ, ∃ i : Nat,
      classify dist trace cands = .ok (b, totalDist dist trace b) ∧
      cands[i]? = some b ∧
      (∀ c ∈ cands, totalDist dist trace b ≤ totalDist dist trace c) ∧
      ∀ (j : Nat) (c : γ), j < i → cands[j]? = some c →
        totalDist dist trace b < totalDist dist trace c := by
  match cands with
  | [] => exact absurd rfl hc
  | c0 :: cs =>
    have hcond : ¬ 1 < (dedupFS (trace.map (fun pt => pt.route))).length := by omega
    simp only [classify, if_neg hcond]
    rcases firstMinAux_spec (totalDist dist trace) cs c0 with
      ⟨heq, hle⟩ | ⟨i, hi, hlt, hle, hfirst⟩
    · refine ⟨firstMinAux (totalDist dist trace) c0 cs, 0, rfl, ?_, ?_, ?_⟩
      · rw [heq]; simp
      · intro c hcm
        rcases List.mem_cons.mp hcm with rfl | hcm
        · rw [heq]
        · rw [heq]; exact hle c hcm
      · intro j c hj _
        omega
    · refine ⟨firstMinAux (totalDist dist trace) c0 cs, i + 1, rfl, ?_, ?_, ?_⟩
      · simpa using hi
      · intro c hcm
        rcases List.mem_cons.mp hcm with rfl | hcm
        · exact le_of_lt hlt
        · exact hle c hcm
      · intro j c hj hjc
        cases j with
        | zero =>
          simp only [List.getElem?_cons_zero, Option.some.injEq] at hjc
          exact hjc ▸ hlt
        | succ j' =>
          simp only [List.getElem?_cons_succ] at hjc
          exact hfirst j' c (by omega) hjc

/-- Concrete one-point trace on route `a`. -/
def trace5 : List TracePoint := [ ⟨0, 0, sA⟩ ]

/-- Concrete distance table: both candidate geometries 7 and 9 are at
distance 5 from every trace point (an exact tie). -/
def dist5 : Nat → TracePoint → ℚ := fun c _ => if c = 7 then 5 else 5

/-- C5 witness: on an exact tie between candidates 7 and 9, `classify`
returns the first candidate (index 0). -/
theorem classify_first_argmin_witness :
    trace5 ≠ [] ∧ (dedupFS (trace5.map (fun pt => pt.route))).length ≤ 1 ∧
    ([ 7, 9 ] : List Nat) ≠ [] ∧
    (∃ b : Nat, ∃ i : Nat,
      classify dist5 trace5 [ 7, 9 ] = .ok (b, totalDist dist5 trace5 b) ∧
      ([ 7, 9 ] : List Nat)[i]? = some b ∧
      (∀ c ∈ ([ 7, 9 ] : List Nat), totalDist dist5 trace5 b ≤ totalDist dist5 trace5 c) ∧
      ∀ (j : Nat) (c : Nat), j < i → ([ 7, 9 ] : List Nat)[j]? = some c →
        totalDist dist5 trace5 b < totalDist dist5 trace5 c) :=
  ⟨by decide, by decide, by decide,
    classify_first_argmin dist5 trace5 [ 7, 9 ] (by decide) (by decide) (by decide)⟩

/-- C7: `classify` fails with `ambiguousRouteInput` exactly when the trace
references more than one distinct route id; with exactly one route id and a
non-empty candidate set it classifies normally, returning an `ok` result. -/
theorem classify_mixed_route_guard {γ : Type} (dist : γ → TracePoint → ℚ)
    (trace : List TracePoint) (cands : List γ) :
    (1 < (dedupFS (trace.map (fun pt => pt.route))).length →
      classify dist trace cands = .error .ambiguousRouteInput) ∧
    ((dedupFS (trace.map (fun pt => pt.route))).length = 1 → cands ≠ [] →
      ∃ b d, classify dist trace cands = .ok (b, d)) := by
  constructor
  · intro h
    simp [classify, if_pos h]
  · intro h hc
    have hcond : ¬ 1 < (dedupFS (trace.map (fun pt => pt.route))).length := by omega
    match cands with
    | [] => exact absurd rfl hc
    | c0 :: cs =>
      refine ⟨firstMinAux (totalDist dist trace) c0 cs,
        totalDist dist trace (firstMinAux (totalDist dist trace) c0 cs), ?_⟩
      simp only [classify, if_neg hcond]

/-- Concrete two-point trace mixing route ids `a` and `b`. -/
def traceMixed : List TracePoint := [ ⟨0, 0, sA⟩, ⟨0, 0, sB⟩ ]

/-- C7 witness: a mixed-route trace fails with `ambiguousRouteInput`; the
single-route trace classifies normally. -/
theorem classify_mixed_route_guard_witness :
    classify dist5 traceMixed [ 7, 9 ] = .error .ambiguousRouteInput ∧
    ∃ b d, classify dist5 trace5 [ 7, 9 ] = .ok (b, d) :=
  ⟨(classify_mixed_route_guard dist5 traceMixed [ 7, 9 ]).1 (by decide),
    (classify_mixed_route_guard dist5 trace5 [ 7, 9 ]).2 (by decide) (by decide)⟩

/-- Powers of ten over ℚ, used by coordinate rounding. -/
def pow10 : Nat → ℚ
  | 0 => 1
  | n + 1 => 10 * pow10 n

/-- IEEE-style round-half-to-even on rationals, the rounding mode of
`numpy`/`pandas` `round` used by `group_points`. -/
def roundHalfEven (x : ℚ) : Int :=
  if x - ⌊x⌋ < 1/2 then ⌊x⌋
  else if 1/2 < x - ⌊x⌋ then ⌊x⌋ + 1
  else if ⌊x⌋ % 2 = 0 then ⌊x⌋ else ⌊x⌋ + 1

/-- `round(x, p)`: round `x` to `p` decimal places, half to even. -/
def roundTo (p : Nat) (x : ℚ) : ℚ := (roundHalfEven (x * pow10 p) : ℚ) / pow10 p

/-- One row of the GPS DataFrame handled by `Functions/points.py`: the
pandas index label `idx`, coordinates, timestamp (seconds, as ℚ) and the
`Scale` column. -/
structure GpsRow where
  idx : Nat
  lat : ℚ
  lon : ℚ
  time : ℚ
  scale : ℚ
deriving DecidableEq

/-- Default row used for out-of-range list reads (never reached on the
in-range accesses performed by the code). -/
def dRow : GpsRow := ⟨0, 0, 0, 0, 0⟩

/-- The rounded-coordinate grouping key of `group_points`. -/
def rKey (p : Nat) (r : GpsRow) : ℚ × ℚ := (roundTo p r.lat, roundTo p r.lon)

/-- All rows of `rows` in the same rounded-coordinate group as `r`
(the pandas `groupby(['RoundedLatitude', 'RoundedLongitude'])` group). -/
def groupOf (p : Nat) (rows : List GpsRow) (r : GpsRow) : List GpsRow :=
  rows.filter (fun s => decide (rKey p s = rKey p r))

/-- `Series.idxmin` on the raw `Latitude` of a group: the index label of the
row with the minimal raw latitude, first such row on ties. -/
def idxminLat (l : List GpsRow) : Nat :=
  match l with
  | [] => 0
  | x :: xs => (firstMinAux (fun r => r.lat) x xs).idx

/-- Sorted insertion by index label (for `sort_index`). -/
def insertRowIdx (r : GpsRow) : List GpsRow → List GpsRow
  | [] => [ r ]
  | s :: ss => if r.idx ≤ s.idx then r :: s :: ss else s :: insertRowIdx r ss

/-- `DataFrame.sort_index()` (ascending, indices are unique in every use). -/
def sortByIdx (l : List GpsRow) : List GpsRow := l.foldr insertRowIdx []

/-- Embedding of `group_points` from `Functions/points.py`: keep the rows
whose index label is the `idxmin`-of-raw-latitude of some rounded-coordinate
group, multiply each kept row's `Scale` by its group's size, and sort by
index. -/
def group_points (rows : List GpsRow) (p : Nat) : List GpsRow :=
  let reps := rows.map (fun s => idxminLat (groupOf p rows s))
  sortByIdx ((rows.filter (fun r => decide (r.idx ∈ reps))).map
    (fun r => { r with scale := r.scale * ((groupOf p rows r).length : ℚ) }))

/-- Fuel-indexed loop of `group_within_intervals`: the cursor `s` is the
positional start index, the window is the whole-frame time filter
`start_time <= Time <= start_time + interval`, and the cursor advances to
the last window row's index label + 1 (`time_interval_df.index[-1] + 1`).
The fuel `df.length` covers every terminating run of the Python loop; the
loop diverges in Python exactly where the fuel would run out. -/
def gwiGo (p : Nat) (delta : ℚ) (df : List GpsRow) : Nat → Nat → List GpsRow
  | 0, _ => []
  | fuel + 1, s =>
    if s < df.length then
      let t0 := (df.getD s dRow).time
      let win := df.filter (fun r => decide (t0 ≤ r.time ∧ r.time ≤ t0 + delta))
      if win.isEmpty then gwiGo p delta df fuel (s + 1)
      else group_points win p ++ gwiGo p delta df fuel ((win.getLastD dRow).idx + 1)
    else []

/-- Embedding of `group_within_intervals` from `Functions/points.py`
(Stage A of the Trace Denoiser). -/
def group_within_intervals (df : List GpsRow) (p : Nat) (delta : ℚ) : List GpsRow :=
  gwiGo p delta df df.length 0

/-- Squared Euclidean lat/lon distance between positions `i` and `j` of the
frame.  `closest_points` compares `sqrt` of these values via `np.argmin`;
since `sqrt` is strictly monotone, the first-minimal index is the same, so
the embedding compares squared distances. -/
def sqDist (df : List GpsRow) (i j : Nat) : ℚ :=
  ((df.getD j dRow).lat - (df.getD i dRow).lat) * ((df.getD j dRow).lat - (df.getD i dRow).lat) +
    ((df.getD j dRow).lon - (df.getD i dRow).lon) * ((df.getD j dRow).lon - (df.getD i dRow).lon)

/-- Fuel-indexed loop of `closest_points`: from position `i`, look at the
next `k` positions (`slice(i+1, min(i+1+k, len))`), jump to the first
position of minimal distance (`np.argmin`), record it and continue.  An
empty look-ahead window (`k = 0` with points remaining) raises in Python
(`np.argmin` of an empty array); the embedding stops there. -/
def closestGo (df : List GpsRow) (k : Nat) : Nat → Nat → List Nat
  | 0, _ => []
  | fuel + 1, i =>
    if i + 1 < df.length then
      match List.range' (i + 1) (min (i + 1 + k) df.length - (i + 1)) with
      | [] => []
      | j0 :: js =>
        (firstMinAux (sqDist df i) j0 js) ::
          closestGo df k fuel (firstMinAux (sqDist df i) j0 js)
    else []

/-- Embedding of `closest_points` from `Functions/points.py` (Stage B of the
Trace Denoiser): the selected positional indices, starting with 0, mapped
back to rows. -/
def closest_points (df : List GpsRow) (k : Nat) : List GpsRow :=
  (0 :: closestGo df k df.length 0).filterMap (fun j => df[j]?)

/-- `reset_index(drop=True)`: re-label rows with positions `i, i+1, ...`. -/
def reindexFrom (i : Nat) : List GpsRow → List GpsRow
  | [] => []
  | r :: rs => { r with idx := i } :: reindexFrom (i + 1) rs

/-- Embedding of `clean_gps_data` from `Functions/points.py`: reset the
index, group within time intervals, overwrite `Scale` with 2, then apply
the forward-nearest filter. -/
def clean_gps_data (df : List GpsRow) (p : Nat) (delta : ℚ) (k : Nat) : List GpsRow :=
  closest_points
    ((group_within_intervals (reindexFrom 0 df) p delta).map (fun r => { r with scale := 2 }))
    k

/-- C6: `group_points` keeps, for each rounded-coordinate group, the row
whose RAW latitude is minimal (`idxmin` on the `Latitude` column), not the
earliest-index representative: with rows at index 0 (lat 1.2) and index 1
(lat 1.1) sharing rounded coordinate (1, 0) in one time window, the LATER
row at index 1 survives, with its weight correctly multiplied by the group
size 2.  This contradicts the claim (and the code's own comment) that the
earliest-index representative is kept. -/
theorem group_window_keeps_min_lat_row :
    group_within_intervals [ ⟨0, 6/5, 0, 0, 2⟩, ⟨1, 11/10, 0, 5, 2⟩ ] 0 60 =
      [ ⟨1, 11/10, 0, 5, 4⟩ ] := by
  have hk0 : rKey 0 (⟨0, 6/5, 0, 0, 2⟩ : GpsRow) = (1, 0) := by
    norm_num [rKey, roundTo, roundHalfEven, pow10]
  have hk1 : rKey 0 (⟨1, 11/10, 0, 5, 2⟩ : GpsRow) = (1, 0) := by
    norm_num [rKey, roundTo, roundHalfEven, pow10]
  have hgp : group_points [ ⟨0, 6/5, 0, 0, 2⟩, ⟨1, 11/10, 0, 5, 2⟩ ] 0 =
      [ ⟨1, 11/10, 0, 5, 4⟩ ] := by
    norm_num [group_points, groupOf, idxminLat, firstMinAux, sortByIdx, insertRowIdx,
      hk0, hk1, List.filter_cons]
  norm_num [group_within_intervals, gwiGo, dRow, List.filter_cons, hgp]

/-- Concrete five-point trace: a jitter spike at position 1, a point close
to the start at position 3, windows of 100 s never containing two points. -/
def ex9 : List GpsRow :=
  [ ⟨0, 0, 0, 0, 2⟩, ⟨1, 100, 100, 1000, 2⟩, ⟨2, 10, 0, 2000, 2⟩,
    ⟨3, 1, 0, 3000, 2⟩, ⟨4, 20, 0, 4000, 2⟩ ]

theorem ex9_clean_once :
    clean_gps_data ex9 0 100 2 =
      [ ⟨0, 0, 0, 0, 2⟩, ⟨2, 10, 0, 2000, 2⟩, ⟨3, 1, 0, 3000, 2⟩, ⟨4, 20, 0, 4000, 2⟩ ] := by
  have hri : reindexFrom 0 ex9 = ex9 := by norm_num [reindexFrom, ex9]
  have hgwi : group_within_intervals ex9 0 100 = ex9 := by
    norm_num [group_within_intervals, ex9, gwiGo, dRow, List.filter_cons, group_points,
      groupOf, idxminLat, firstMinAux, sortByIdx, insertRowIdx]
  have hmap : ex9.map (fun r => { r with scale := (2:ℚ) }) = ex9 := by norm_num [ex9]
  have hclosest : closest_points ex9 2 =
      [ ⟨0, 0, 0, 0, 2⟩, ⟨2, 10, 0, 2000, 2⟩, ⟨3, 1, 0, 3000, 2⟩, ⟨4, 20, 0, 4000, 2⟩ ] := by
    norm_num [closest_points, ex9, closestGo, sqDist, firstMinAux, dRow, List.range',
      List.filterMap_cons]
  simp only [clean_gps_data, hri, hgwi, hmap, hclosest]

theorem ex9_clean_twice :
    clean_gps_data
      [ ⟨0, 0, 0, 0, 2⟩, ⟨2, 10, 0, 2000, 2⟩, ⟨3, 1, 0, 3000, 2⟩, ⟨4, 20, 0, 4000, 2⟩ ]
      0 100 2 =
      [ ⟨0, 0, 0, 0, 2⟩, ⟨2, 1, 0, 3000, 2⟩, ⟨3, 20, 0, 4000, 2⟩ ] := by
  have hri : reindexFrom 0
      [ (⟨0, 0, 0, 0, 2⟩ : GpsRow), ⟨2, 10, 0, 2000, 2⟩, ⟨3, 1, 0, 3000, 2⟩,
        ⟨4, 20, 0, 4000, 2⟩ ] =
      [ ⟨0, 0, 0, 0, 2⟩, ⟨1, 10, 0, 2000, 2⟩, ⟨2, 1, 0, 3000, 2⟩, ⟨3, 20, 0, 4000, 2⟩ ] := by
    norm_num [reindexFrom]
  have hgwi : group_within_intervals
      [ (⟨0, 0, 0, 0, 2⟩ : GpsRow), ⟨1, 10, 0, 2000, 2⟩, ⟨2, 1, 0, 3000, 2⟩,
        ⟨3, 20, 0, 4000, 2⟩ ] 0 100 =
      [ ⟨0, 0, 0, 0, 2⟩, ⟨1, 10, 0, 2000, 2⟩, ⟨2, 1, 0, 3000, 2⟩, ⟨3, 20, 0, 4000, 2⟩ ] := by
    norm_num [group_within_intervals, gwiGo, dRow, List.filter_cons, group_points,
      groupOf, idxminLat, firstMinAux, sortByIdx, insertRowIdx]
  have hmap : ([ (⟨0, 0, 0, 0, 2⟩ : GpsRow), ⟨1, 10, 0, 2000, 2⟩, ⟨2, 1, 0, 3000, 2⟩,
      ⟨3, 20, 0, 4000, 2⟩ ]).map (fun r => { r with scale := (2:ℚ) }) =
      [ ⟨0, 0, 0, 0, 2⟩, ⟨1, 10, 0, 2000, 2⟩, ⟨2, 1, 0, 3000, 2⟩, ⟨3, 20, 0, 4000, 2⟩ ] := by
    norm_num
  have hclosest : closest_points
      [ (⟨0, 0, 0, 0, 2⟩ : GpsRow), ⟨1, 10, 0, 2000, 2⟩, ⟨2, 1, 0, 3000, 2⟩,
        ⟨3, 20, 0, 4000, 2⟩ ] 2 =
      [ ⟨0, 0, 0, 0, 2⟩, ⟨2, 1, 0, 3000, 2⟩, ⟨3, 20, 0, 4000, 2⟩ ] := by
    norm_num [closest_points, closestGo, sqDist, firstMinAux, dRow, List.range',
      List.filterMap_cons]
  simp only [clean_gps_data, hri, hgwi, hmap, hclosest]

/-- C9 (counterexample): the Trace Denoiser is not idempotent.  On `ex9`
the first pass removes only the jitter spike at position 1; the second
pass, whose look-ahead window now reaches the point close to the start,
removes a further point, so the second output (3 points) differs from the
first (4 points). -/
theorem denoiser_not_idempotent_cex :
    clean_gps_data (clean_gps_data ex9 0 100 2) 0 100 2 ≠ clean_gps_data ex9 0 100 2 := by
  rw [ex9_clean_once, ex9_clean_twice]
  intro heq
  have hlen := congrArg List.length heq
  simp at hlen

theorem length_insertRowIdx (r : GpsRow) :
    ∀ l : List GpsRow, (insertRowIdx r l).length = l.length + 1 := by
  intro l
  induction l with
  | nil => simp [insertRowIdx]
  | cons s ss ih =>
    by_cases h : r.idx ≤ s.idx
    · simp [insertRowIdx, if_pos h]
    · simp [insertRowIdx, if_neg h, ih]

theorem length_sortByIdx (l : List GpsRow) : (sortByIdx l).length = l.length := by
  induction l with
  | nil => simp [sortByIdx]
  | cons s ss ih =>
    simp only [sortByIdx, List.foldr_cons, length_insertRowIdx]
    simpa [sortByIdx] using ih

theorem length_group_points_le (rows : List GpsRow) (p : Nat) :
    (group_points rows p).length ≤ rows.length := by
  simp only [group_points, length_sortByIdx, List.length_map]
  exact List.length_filter_le _ _

/-- Canonical indexing: every row carries its own position as index label
(established by `reset_index(drop=True)` at the start of `clean_gps_data`). -/
def canonIdx (df : List GpsRow) : Prop :=
  ∀ (i : Nat) (r : GpsRow), df[i]? = some r → r.idx = i

/-- The trace is ordered by time (the GpsTrace construction invariant). -/
def timeSorted (df : List GpsRow) : Prop :=
  (df.map (fun r => r.time)).Pairwise (· ≤ ·)

theorem reindexFrom_getElem? :
    ∀ (df : List GpsRow) (k i : Nat) (r : GpsRow),
      (reindexFrom k df)[i]? = some r → r.idx = k + i := by
  intro df
  induction df with
  | nil => intro k i r h; simp [reindexFrom] at h
  | cons d ds ih =>
    intro k i r h
    cases i with
    | zero =>
      simp only [reindexFrom, List.getElem?_cons_zero, Option.some.injEq] at h
      rw [← h]
      simp
    | succ i' =>
      simp only [reindexFrom, List.getElem?_cons_succ] at h
      have := ih (k + 1) i' r h
      omega

theorem canonIdx_reindexFrom (df : List GpsRow) : canonIdx (reindexFrom 0 df) := by
  intro i r h
  simpa using reindexFrom_getElem? df 0 i r h

theorem times_reindexFrom :
    ∀ (df : List GpsRow) (k : Nat),
      (reindexFrom k df).map (fun r => r.time) = df.map (fun r => r.time) := by
  intro df
  induction df with
  | nil => intro k; simp [reindexFrom]
  | cons d ds ih => intro k; simp [reindexFrom, ih (k + 1)]

theorem timeSorted_reindexFrom (df : List GpsRow) (h : timeSorted df) :
    timeSorted (reindexFrom 0 df) := by
  unfold timeSorted
  rw [times_reindexFrom]
  exact h

theorem length_reindexFrom : ∀ (df : List GpsRow) (k : Nat),
    (reindexFrom k df).length = df.length := by
  intro df
  induction df with
  | nil => intro k; simp [reindexFrom]
  | cons d ds ih => intro k; simp [reindexFrom, ih (k + 1)]

theorem pairwise_idx_of_canon (df : List GpsRow) (h : canonIdx df) :
    df.Pairwise (fun a b => a.idx < b.idx) := by
  rw [List.pairwise_iff_getElem]
  intro i j hi hj hij
  have h1 := h i df[i] (List.getElem?_eq_getElem hi)
  have h2 := h j df[j] (List.getElem?_eq_getElem hj)
  omega

theorem sorted_time_le (df : List GpsRow) (hsort : timeSorted df) :
    ∀ (i j : Nat) (ri rj : GpsRow), i ≤ j → df[i]? = some ri → df[j]? = some rj →
      ri.time ≤ rj.time := by
  intro i j ri rj hij hi hj
  obtain ⟨hi', hieq⟩ := List.getElem?_eq_some.mp hi
  obtain ⟨hj', hjeq⟩ := List.getElem?_eq_some.mp hj
  rcases Nat.lt_or_ge j (i + 1) with h | h
  · have : i = j := by omega
    subst this
    rw [hieq] at hjeq
    rw [hjeq]
  · have hp := (List.pairwise_iff_getElem.mp hsort) i j
      (by simpa using hi') (by simpa using hj') (by omega)
    simpa [hieq, hjeq] using hp

theorem getLastD_ne_nil_eq :
    ∀ (l : List GpsRow) (d1 d2 : GpsRow), l ≠ [] → l.getLastD d1 = l.getLastD d2 := by
  intro l
  induction l with
  | nil => intro d1 d2 h; exact absurd rfl h
  | cons a t ih =>
    intro d1 d2 _
    cases t with
    | nil => simp [List.getLastD_cons]
    | cons b t' => simp only [List.getLastD_cons]

theorem getLastD_mem : ∀ (l : List GpsRow) (d : GpsRow), l ≠ [] → l.getLastD d ∈ l := by
  intro l
  induction l with
  | nil => intro d h; exact absurd rfl h
  | cons a t ih =>
    intro d _
    rw [List.getLastD_cons]
    cases t with
    | nil => simp [List.getLastD]
    | cons b t' => exact List.mem_cons_of_mem _ (ih a (by simp))

theorem getLastD_max (l : List GpsRow) (hp : l.Pairwise (fun a b => a.idx < b.idx)) :
    ∀ r ∈ l, r.idx ≤ (l.getLastD dRow).idx := by
  induction l with
  | nil => intro r hr; simp at hr
  | cons a t ih =>
    intro r hr
    obtain ⟨ha, hpt⟩ := List.pairwise_cons.mp hp
    rw [List.getLastD_cons]
    rcases List.mem_cons.mp hr with rfl | hr
    · cases t with
      | nil => simp [List.getLastD]
      | cons b t' =>
        have hmem := getLastD_mem (b :: t') r (by simp)
        exact le_of_lt (ha _ hmem)
    · cases t with
      | nil => simp at hr
      | cons b t' =>
        have hle := ih hpt r hr
        rwa [getLastD_ne_nil_eq (b :: t') a dRow (by simp)]

theorem length_le_of_idx_bounds :
    ∀ (l : List GpsRow) (a b : Nat),
      l.Pairwise (fun x y => x.idx < y.idx) → (∀ r ∈ l, a ≤ r.idx ∧ r.idx ≤ b) →
      l.length ≤ b + 1 - a := by
  intro l
  induction l with
  | nil => intro a b _ _; simp
  | cons x t ih =>
    intro a b hp hbound
    obtain ⟨hx, hpt⟩ := List.pairwise_cons.mp hp
    obtain ⟨hax, hxb⟩ := hbound x (List.mem_cons_self _ _)
    have ht := ih (x.idx + 1) b hpt (fun r hr =>
      ⟨hx r hr, (hbound r (List.mem_cons_of_mem _ hr)).2⟩)
    simp only [List.length_cons]
    omega

theorem gwiGo_length_le (p : Nat) (delta : ℚ) (df : List GpsRow)
    (hd : 0 ≤ delta) (hcanon : canonIdx df) (hsort : timeSorted df) :
    ∀ (fuel s : Nat), df.length ≤ s + fuel →
      (∀ (j : Nat) (rj rs : GpsRow), j < s → df[j]? = some rj → df[s]? = some rs →
        rj.time < rs.time) →
      (gwiGo p delta df fuel s).length ≤ df.length - s := by
  intro fuel
  induction fuel with
  | zero =>
    intro s _ _
    simp [gwiGo]
  | succ fuel ih =>
    intro s hfuel hinv
    by_cases hs : s < df.length
    · simp only [gwiGo, if_pos hs]
      set rsv := df.getD s dRow with hrsv
      set win := df.filter (fun r => decide (rsv.time ≤ r.time ∧ r.time ≤ rsv.time + delta))
        with hwin
      have hsome : df[s]? = some rsv := by
        rw [hrsv, List.getD_eq_getElem?_getD, List.getElem?_eq_getElem hs]
        rfl
      have hrsw : rsv ∈ win := by
        rw [hwin]
        refine List.mem_filter.mpr ⟨List.getElem?_mem hsome, ?_⟩
        simp only [decide_eq_true_eq]
        exact ⟨le_refl _, by linarith⟩
      have hwne : win ≠ [] := List.ne_nil_of_mem hrsw
      have hwp : win.Pairwise (fun a b => a.idx < b.idx) :=
        (pairwise_idx_of_canon df hcanon).filter _
      have hlow : ∀ r ∈ win, s ≤ r.idx := by
        intro r hr
        rw [hwin] at hr
        obtain ⟨hrdf, hrpred⟩ := List.mem_filter.mp hr
        simp only [decide_eq_true_eq] at hrpred
        obtain ⟨i, hi⟩ := List.mem_iff_getElem?.mp hrdf
        have hidx := hcanon i r hi
        by_contra hlt
        push_neg at hlt
        have hti := hinv i r rsv (by omega) hi hsome
        have := hrpred.1
        linarith
      set L := (win.getLastD dRow).idx with hL
      have hup : ∀ r ∈ win, r.idx ≤ L := getLastD_max win hwp
      have hrsidx : rsv.idx = s := hcanon s rsv hsome
      have hsL : s ≤ L := by
        have := hup rsv hrsw
        omega
      have hwlast : win.getLastD dRow ∈ win := getLastD_mem win dRow hwne
      have hwlastdf : df[L]? = some (win.getLastD dRow) := by
        have hw := hwlast
        rw [hwin] at hw
        obtain ⟨hwdf, _⟩ := List.mem_filter.mp hw
        obtain ⟨iL, hiL⟩ := List.mem_iff_getElem?.mp hwdf
        have hidL := hcanon iL _ hiL
        rw [hL, hidL]
        exact hiL
      have hLlt : L < df.length := (List.getElem?_eq_some.mp hwlastdf).1
      have hwinlen : win.length ≤ L + 1 - s :=
        length_le_of_idx_bounds win s L hwp (fun r hr => ⟨hlow r hr, hup r hr⟩)
      have hlasttime : (win.getLastD dRow).time ≤ rsv.time + delta := by
        have hw := hwlast
        rw [hwin] at hw
        obtain ⟨_, hpred⟩ := List.mem_filter.mp hw
        simp only [decide_eq_true_eq] at hpred
        exact hpred.2
      have hinv' : ∀ (j : Nat) (rj rs' : GpsRow), j < L + 1 → df[j]? = some rj →
          df[L+1]? = some rs' → rj.time < rs'.time := by
        intro j rj rs' hj hdfj hdfs'
        have hids' : rs'.idx = L + 1 := hcanon (L + 1) rs' hdfs'
        have htop : rsv.time + delta < rs'.time := by
          by_contra hle
          push_neg at hle
          have hge : rsv.time ≤ rs'.time :=
            sorted_time_le df hsort s (L + 1) rsv rs' (by omega) hsome hdfs'
          have hmem : rs' ∈ win := by
            rw [hwin]
            refine List.mem_filter.mpr ⟨List.getElem?_mem hdfs', ?_⟩
            simp only [decide_eq_true_eq]
            exact ⟨hge, hle⟩
          have := hup rs' hmem
          omega
        by_cases hjs : j < s
        · have h1 := hinv j rj rsv hjs hdfj hsome
          linarith
        · push_neg at hjs
          have h2 : rj.time ≤ (win.getLastD dRow).time :=
            sorted_time_le df hsort j L rj _ (by omega) hdfj hwlastdf
          linarith
      have hfalse : win.isEmpty = false := isEmpty_false_of_ne_nil hwne
      rw [if_neg (by simp [hfalse])]
      have hrest := ih (L + 1) (by omega) hinv'
      have hgp := length_group_points_le win p
      simp only [List.length_append]
      omega
    · simp [gwiGo, hs]

theorem denoiser_gwi_length_le (df : List GpsRow) (p : Nat) (delta : ℚ)
    (hd : 0 ≤ delta) (hcanon : canonIdx df) (hsort : timeSorted df) :
    (group_within_intervals df p delta).length ≤ df.length := by
  have h := gwiGo_length_le p delta df hd hcanon hsort df.length 0 (by omega)
    (by intro j rj rs hj _ _; omega)
  simpa [group_within_intervals] using h

theorem closestGo_length_le (df : List GpsRow) (k : Nat) :
    ∀ (fuel i : Nat), (closestGo df k fuel i).length ≤ df.length - (i + 1) := by
  intro fuel
  induction fuel with
  | zero => intro i; simp [closestGo]
  | succ fuel ih =>
    intro i
    by_cases h : i + 1 < df.length
    · simp only [closestGo, if_pos h]
      cases hr : List.range' (i + 1) (min (i + 1 + k) df.length - (i + 1)) with
      | nil => simp
      | cons j0 js =>
        have hmem : firstMinAux (sqDist df i) j0 js ∈ j0 :: js :=
          firstMinAux_mem (sqDist df i) js j0
        rw [← hr] at hmem
        obtain ⟨hge, hlt⟩ := List.mem_range'_1.mp hmem
        have hM : min (i + 1 + k) df.length ≤ df.length := min_le_right _ _
        have hrec := ih (firstMinAux (sqDist df i) j0 js)
        simp only [List.length_cons]
        omega
    · simp [closestGo, h]

theorem length_closest_points_le (df : List GpsRow) (k : Nat) :
    (closest_points df k).length ≤ df.length := by
  cases df with
  | nil => simp [closest_points, closestGo]
  | cons d ds =>
    have h1 := closestGo_length_le (d :: ds) k (d :: ds).length 0
    have h2 : (closest_points (d :: ds) k).length ≤
        (0 :: closestGo (d :: ds) k (d :: ds).length 0).length :=
      List.length_filterMap_le _ _
    simp only [List.length_cons] at h1 h2 ⊢
    omega

/-- C9 (amended): on a time-ordered trace and a non-negative time window,
one pass of the Trace Denoiser never lengthens the trace; in particular a
second pass produces an output no longer than the first pass's output — but
as `denoiser_not_idempotent_cex` shows, not necessarily the same output. -/
theorem denoiser_length_monotone (df : List GpsRow) (p : Nat) (delta : ℚ) (k : Nat)
    (hd : 0 ≤ delta) (hsort : timeSorted df) :
    (clean_gps_data df p delta k).length ≤ df.length := by
  have hcanon : canonIdx (reindexFrom 0 df) := canonIdx_reindexFrom df
  have hsort' : timeSorted (reindexFrom 0 df) := timeSorted_reindexFrom df hsort
  have hgwi := denoiser_gwi_length_le (reindexFrom 0 df) p delta hd hcanon hsort'
  have hcp := length_closest_points_le
    ((group_within_intervals (reindexFrom 0 df) p delta).map (fun r => { r with scale := 2 })) k
  simp only [clean_gps_data]
  simp only [List.length_map] at hcp
  have hlen := length_reindexFrom df 0
  omega

/-- C9 witness for the amended statement, at the concrete trace `ex9`. -/
theorem denoiser_length_monotone_witness :
    (0 : ℚ) ≤ 100 ∧ timeSorted ex9 ∧ (clean_gps_data ex9 0 100 2).length ≤ ex9.length :=
  ⟨by norm_num,
    by norm_num [timeSorted, ex9, List.pairwise_cons],
    denoiser_length_monotone ex9 0 100 2 (by norm_num)
      (by norm_num [timeSorted, ex9, List.pairwise_cons])⟩

/-- Character-list prefix test (Python string comparison helper). -/
def startsWithL : List Char → List Char → Bool
  | _, [] => true
  | [], _ :: _ => false
  | a :: as, b :: bs => a == b && startsWithL as bs

/-- Character-list substring test: model of Python's `needle in hay`. -/
def infixCheck (needle : List Char) : List Char → Bool
  | [] => needle.isEmpty
  | c :: cs => startsWithL (c :: cs) needle || infixCheck needle cs

/-- Fuel-indexed replace-all (model of Python `str.replace(pat, rep)`): scan
left to right, replace each non-overlapping occurrence and continue after
it.  The fuel `l.length` suffices because every step consumes at least one
character of the scanned list (the patterns used are non-empty). -/
def replaceLGo (pat rep : List Char) : Nat → List Char → List Char
  | _, [] => []
  | 0, l => l
  | fuel + 1, c :: cs =>
    if pat.isEmpty then c :: cs
    else if startsWithL (c :: cs) pat then
      rep ++ replaceLGo pat rep fuel (cs.drop (pat.length - 1))
    else c :: replaceLGo pat rep fuel cs

/-- Model of Python `str.replace` on character lists. -/
def replaceL (pat rep l : List Char) : List Char := replaceLGo pat rep l.length l

/-- The `prefixes` list of `RutasFinales.py`. -/
def streetPres : List (List Char) :=
  [ "cerrada ".data, "calzada ".data, "avenida ".data, "calle ".data,
    "prolongación ".data ]

/-- Embedding of `remove_pre` from `RutasFinales.py`: sequentially delete
every occurrence of each common street-type word. -/
def removePreL (l : List Char) : List Char :=
  streetPres.foldl (fun n pre => replaceL pre [] n) l

/-- Character-wise ASCII lowering, model of `str.lower()`. -/
def lowerL (l : List Char) : List Char := l.map Char.toLower

/-- Model of `str.strip()`: drop whitespace at both ends. -/
def stripL (l : List Char) : List Char :=
  ((l.dropWhile Char.isWhitespace).reverse.dropWhile Char.isWhitespace).reverse

/-- The per-edge-name compatibility test of `process_route`:
`remove_pre(x.lower()).strip()` on both names, then containment in either
direction. -/
def compatName (anchor edgeName : String) : Bool :=
  infixCheck (stripL (removePreL (lowerL anchor.data)))
      (stripL (removePreL (lowerL edgeName.data))) ||
    infixCheck (stripL (removePreL (lowerL edgeName.data)))
      (stripL (removePreL (lowerL anchor.data)))

/-- The street-name consistency loop of `process_route` (`con_street`): for
every internal edge `(route[j], route[j+1])`, `j` ranging over
`range(1, len(route) - 1)`, an edge with name labels requires every label to
be compatible with the anchor's street name (the loop breaks to `False` at
the first incompatible label); unnamed edges are skipped. -/
def conStreet (en : Nat → Nat → List String) (route : List Nat) (anchor : String) : Bool :=
  (List.range' 1 (route.length - 2)).all (fun j =>
    (en (route.getD j 0) (route.getD (j + 1) 0)).isEmpty ||
      (en (route.getD j 0) (route.getD (j + 1) 0)).all (fun nm => compatName anchor nm))

/-- A connection tuple `(node_id, street_a, street_b)` as produced by
`PuntosConexion.py` and consumed by `process_route`. -/
abbrev Conn := Nat × String × String

/-- A gap candidate `(gap_distance, gap_route, r1)`. -/
abbrev GapT := ℚ × List Nat × List Nat

/-- Failure modes of the reduction loop of `process_route`: the uncaught
`networkx.NetworkXNoPath` of the gap-bridge `shortest_path` call, and the
`NameError` that would occur if the leftover loop variables `data1`/`data2`
were still undefined when the gap branch runs. -/
inductive StitchError
  | noPathFound
  | nameError
deriving DecidableEq

/-- The result of processing one direction of one trip: the three path
lists `confirmada` / `hueco` / `inconfirmada`. -/
structure WayResult where
  confirmada : List (List Nat)
  hueco : List (List Nat)
  inconfirmada : List (List Nat)
deriving DecidableEq

/-- The Python set `setWay` restricted to its node ids: the set also holds
the street-name strings of the connection tuples (iterating a tuple yields
all three components), but a string never equals a node id in a path, so
only the node ids can contribute to the membership count. -/
def setWayOf (nodes1 nodes2 : List Conn) : List Nat :=
  dedupFS ((nodes1 ++ nodes2).map (fun c => c.1))

/-- One candidate path of the generation loop of `process_route`: the 10 km
geodesic guard, `nx.shortest_path` (`sp`, `none` = NetworkXNoPath, caught
here by the `except ... continue`), the `count == 2` membership check of
`setWay` elements in the path, and the street-name consistency check
against `n1[2]`. -/
def candRoute (sp : Nat → Nat → Option (List Nat)) (coordOf : Nat → ℚ × ℚ)
    (geo : ℚ × ℚ → ℚ × ℚ → ℚ) (en : Nat → Nat → List String)
    (sW : List Nat) (n1 n2 : Conn) : Option (List Nat) :=
  if geo (coordOf n1.1) (coordOf n2.1) < 10000 then
    match sp n1.1 n2.1 with
    | none => none
    | some route =>
      if sW.countP (fun x => decide (x ∈ route)) = 2 ∧ conStreet en route n1.2.2 = true
      then some route else none
  else none

/-- All candidate paths of one token boundary (`routes` in the code),
in the `n1`-major, `n2`-minor iteration order. -/
def buildRoutes (sp : Nat → Nat → Option (List Nat)) (coordOf : Nat → ℚ × ℚ)
    (geo : ℚ × ℚ → ℚ × ℚ → ℚ) (en : Nat → Nat → List String)
    (nodes1 nodes2 : List Conn) : List (List Nat) :=
  nodes1.flatMap (fun n1 =>
    nodes2.filterMap (fun n2 => candRoute sp coordOf geo en (setWayOf nodes1 nodes2) n1 n2))

/-- The values held by the loop variables `data1` and `data2` after the
candidate-generation loops finish: `data1` is the coordinate of the last
`n1` of the last boundary whose `nodes1` is non-empty, `data2` the
coordinate of the last `n2` of the last boundary whose `nodes1` AND
`nodes2` are non-empty (the inner loop never runs when `nodes1` is empty);
`none` when never assigned (a `NameError` if read). -/
def staleCoords (coordOf : Nat → ℚ × ℚ) (pairs : List (List Conn × List Conn)) :
    Option (ℚ × ℚ) × Option (ℚ × ℚ) :=
  ((pairs.filterMap (fun pr => pr.1.getLast?.map (fun c => coordOf c.1))).getLast?,
    (pairs.filterMap (fun pr =>
      if pr.1.isEmpty then none else pr.2.getLast?.map (fun c => coordOf c.1))).getLast?)

/-- The chain condition `lastRoute and r1[0] == lastRoute[-1]`. -/
def chainCond (lastRoute r1 : List Nat) : Bool :=
  !lastRoute.isEmpty && (r1.headD 0 == lastRoute.getLastD 0)

/-- One `(r1, r2)` step of the reduction loop's `if/elif/else`: chain or
endpoint match draws `r1`; otherwise the gap branch evaluates
`geodesic(data1, data2)` (the STALE loop variables `d12`, a `NameError` if
undefined) and `nx.shortest_path(graph, r1[-1], r2[0])` (uncaught
`NetworkXNoPath` if `none`), collecting the gap when the stale distance is
under 500.  The paths handled here are shortest paths, hence non-empty, so
`headD`/`getLastD` defaults are never consulted. -/
def stepPair (sp : Nat → Nat → Option (List Nat)) (geo : ℚ × ℚ → ℚ × ℚ → ℚ)
    (d12 : Option (ℚ × ℚ) × Option (ℚ × ℚ)) (lastRoute r1 r2 : List Nat) :
    Except StitchError (List (List Nat) × List GapT) :=
  if chainCond lastRoute r1 && (r1.getLastD 0 == r2.headD 0) then .ok ([ r1 ], [])
  else if r1.getLastD 0 == r2.headD 0 then .ok ([ r1 ], [])
  else
    match d12.1, d12.2 with
    | some a, some b =>
      match sp (r1.getLastD 0) (r2.headD 0) with
      | none => .error .noPathFound
      | some gapRoute =>
        if geo a b < 500 then .ok ([], [ (geo a b, gapRoute, r1) ]) else .ok ([], [])
    | _, _ => .error .nameError

/-- Inner loop over `route2` for a fixed `r1`. -/
def collectR2 (sp : Nat → Nat → Option (List Nat)) (geo : ℚ × ℚ → ℚ × ℚ → ℚ)
    (d12 : Option (ℚ × ℚ) × Option (ℚ × ℚ)) (lastRoute r1 : List Nat) :
    List (List Nat) → Except StitchError (List (List Nat) × List GapT)
  | [] => .ok ([], [])
  | r2 :: rs =>
    match stepPair sp geo d12 lastRoute r1 r2 with
    | .error e => .error e
    | .ok (d, g1) =>
      match collectR2 sp geo d12 lastRoute r1 rs with
      | .error e => .error e
      | .ok (ds, gs) => .ok (d ++ ds, g1 ++ gs)

/-- Outer loop over `route1`, accumulating `routesDraw` and `gaps` in
iteration order. -/
def collectR1 (sp : Nat → Nat → Option (List Nat)) (geo : ℚ × ℚ → ℚ × ℚ → ℚ)
    (d12 : Option (ℚ × ℚ) × Option (ℚ × ℚ)) (lastRoute : List Nat)
    (route2 : List (List Nat)) :
    List (List Nat) → Except StitchError (List (List Nat) × List GapT)
  | [] => .ok ([], [])
  | r1 :: rs =>
    match collectR2 sp geo d12 lastRoute r1 route2 with
    | .error e => .error e
    | .ok (d, g1) =>
      match collectR1 sp geo d12 lastRoute route2 rs with
      | .error e => .error e
      | .ok (ds, gs) => .ok (d ++ ds, g1 ++ gs)

/-- One boundary of the reduction loop: `route2` present and non-empty
(Python truthiness of `if route2:`) runs the pair loops; a `None` or empty
`route2` runs the else-branch that splits `route1` into chained draws and
unsure leftovers. -/
def boundaryStep (sp : Nat → Nat → Option (List Nat)) (geo : ℚ × ℚ → ℚ × ℚ → ℚ)
    (d12 : Option (ℚ × ℚ) × Option (ℚ × ℚ)) (lastRoute : List Nat)
    (route1 : List (List Nat)) (route2opt : Option (List (List Nat))) :
    Except StitchError (List (List Nat) × List GapT × List (List Nat)) :=
  match route2opt with
  | some route2 =>
    if route2.isEmpty then
      .ok (route1.filter (fun r1 => chainCond lastRoute r1), [],
        route1.filter (fun r1 => !chainCond lastRoute r1))
    else
      match collectR1 sp geo d12 lastRoute route2 route1 with
      | .error e => .error e
      | .ok (ds, gs) => .ok (ds, gs, [])
  | none =>
    .ok (route1.filter (fun r1 => chainCond lastRoute r1), [],
      route1.filter (fun r1 => !chainCond lastRoute r1))

/-- The sequential reduction of `process_route` over
`zip(routesFinal, routesFinal[1:] + [None])`: if no draws but gaps exist,
pick `min(gaps, key=first)` (first minimal), append its bridge to the gap
list and its `r1` to the confirmed list when its stale distance is under
500, and continue the chain from the bridge; otherwise extend the confirmed
list with the draws and keep the last draw (or the previous `lastRoute`)
as the chain head.  Unsure leftovers accumulate in all cases. -/
def reduceGo (sp : Nat → Nat → Option (List Nat)) (geo : ℚ × ℚ → ℚ × ℚ → ℚ)
    (d12 : Option (ℚ × ℚ) × Option (ℚ × ℚ)) :
    List (List (List Nat)) → List Nat → List (List Nat) → List (List Nat) →
    List (List Nat) → Except StitchError WayResult
  | [], _, accC, accG, accU => .ok ⟨accC, accG, accU⟩
  | route1 :: rest, lastRoute, accC, accG, accU =>
    match boundaryStep sp geo d12 lastRoute route1 rest.head? with
    | .error e => .error e
    | .ok (routesDraw, gaps, unSure) =>
      match routesDraw, gaps with
      | [], g0 :: gs =>
        reduceGo sp geo d12 rest (firstMinAux (fun t => t.1) g0 gs).2.1
          (if (firstMinAux (fun t => t.1) g0 gs).1 < 500 then
            accC ++ [ (firstMinAux (fun t => t.1) g0 gs).2.2 ] else accC)
          (if (firstMinAux (fun t => t.1) g0 gs).1 < 500 then
            accG ++ [ (firstMinAux (fun t => t.1) g0 gs).2.1 ] else accG)
          (accU ++ unSure)
      | rds, _ =>
        reduceGo sp geo d12 rest
          (if rds.isEmpty then lastRoute else rds.getLastD [])
          (accC ++ rds) accG (accU ++ unSure)

/-- Embedding of the per-direction core of `process_route` from
`RutasFinales.py`: candidate generation over consecutive connection-set
pairs followed by the sequential reduction (map drawing and HTML output are
out of scope). -/
def processWay (sp : Nat → Nat → Option (List Nat)) (coordOf : Nat → ℚ × ℚ)
    (geo : ℚ × ℚ → ℚ × ℚ → ℚ) (en : Nat → Nat → List String)
    (way : List (List Conn)) : Except StitchError WayResult :=
  reduceGo sp geo (staleCoords coordOf (way.zip way.tail))
    ((way.zip way.tail).map (fun pr => buildRoutes sp coordOf geo en pr.1 pr.2)) [] [] [] []

theorem mem_of_head?Nat {l : List Nat} {a : Nat} (h : l.head? = some a) : a ∈ l := by
  cases l with
  | nil => simp at h
  | cons x xs =>
    simp only [List.head?_cons, Option.some.injEq] at h
    exact h ▸ List.mem_cons_self _ _

theorem mem_of_getLast?Nat : ∀ (l : List Nat) (a : Nat), l.getLast? = some a → a ∈ l := by
  intro l
  induction l with
  | nil => intro a h; simp at h
  | cons x xs ih =>
    intro a h
    cases xs with
    | nil =>
      simp only [List.getLast?_singleton, Option.some.injEq] at h
      exact h ▸ List.mem_cons_self _ _
    | cons y ys =>
      rw [List.getLast?_cons_cons] at h
      exact List.mem_cons_of_mem _ (ih a h)

theorem nodup_head_last_eq {l : List Nat} {a : Nat} (hnd : l.Nodup) (hh : l.head? = some a)
    (hl : l.getLast? = some a) : l = [ a ] := by
  cases l with
  | nil => simp at hh
  | cons x xs =>
    simp only [List.head?_cons, Option.some.injEq] at hh
    subst hh
    cases xs with
    | nil => rfl
    | cons y ys =>
      rw [List.getLast?_cons_cons] at hl
      have hmem : x ∈ y :: ys := mem_of_getLast?Nat _ _ hl
      exact absurd hmem (List.nodup_cons.mp hnd).1

theorem countP_singleton_mem {sW : List Nat} {a : Nat} (hnd : sW.Nodup) (ha : a ∈ sW) :
    sW.countP (fun x => decide (x ∈ [ a ])) = 1 := by
  have h1 : sW.countP (fun x => decide (x ∈ [ a ])) = sW.countP (fun x => x == a) := by
    apply List.countP_congr
    intro x _
    simp [List.mem_singleton]
  rw [h1, ← List.count_eq_countP]
  exact List.count_eq_one_of_mem hnd ha

theorem countP_pair_mem {a b : Nat} {p : List Nat} (hab : a ≠ b) (ha : a ∈ p) (hb : b ∈ p) :
    (dedupFS [ a, b ]).countP (fun x => decide (x ∈ p)) = 2 := by
  rw [dedupFS_pair (Ne.symm hab)]
  simp [List.countP_cons, ha, hb]

theorem stepPair_shape {sp : Nat → Nat → Option (List Nat)} {geo : ℚ × ℚ → ℚ × ℚ → ℚ}
    {d12 : Option (ℚ × ℚ) × Option (ℚ × ℚ)} {lastRoute r1 r2 : List Nat}
    {d : List (List Nat)} {g : List GapT}
    (h : stepPair sp geo d12 lastRoute r1 r2 = .ok (d, g)) :
    (∀ q ∈ d, q = r1) ∧ (∀ t ∈ g, t.2.2 = r1) := by
  simp only [stepPair] at h
  split at h
  · simp only [Except.ok.injEq, Prod.mk.injEq] at h
    obtain ⟨rfl, rfl⟩ := h
    constructor <;> simp
  · split at h
    · simp only [Except.ok.injEq, Prod.mk.injEq] at h
      obtain ⟨rfl, rfl⟩ := h
      constructor <;> simp
    · split at h
      · split at h
        · simp at h
        · split at h
          · simp only [Except.ok.injEq, Prod.mk.injEq] at h
            obtain ⟨rfl, rfl⟩ := h
            constructor <;> simp
          · simp only [Except.ok.injEq, Prod.mk.injEq] at h
            obtain ⟨rfl, rfl⟩ := h
            constructor <;> simp
      · simp at h

theorem collectR2_shape {sp : Nat → Nat → Option (List Nat)} {geo : ℚ × ℚ → ℚ × ℚ → ℚ}
    {d12 : Option (ℚ × ℚ) × Option (ℚ × ℚ)} {lastRoute r1 : List Nat} :
    ∀ {l : List (List Nat)} {d : List (List Nat)} {g : List GapT},
      collectR2 sp geo d12 lastRoute r1 l = .ok (d, g) →
      (∀ q ∈ d, q = r1) ∧ (∀ t ∈ g, t.2.2 = r1) := by
  intro l
  induction l with
  | nil =>
    intro d g h
    simp only [collectR2, Except.ok.injEq, Prod.mk.injEq] at h
    obtain ⟨rfl, rfl⟩ := h
    constructor <;> simp
  | cons r2 rs ih =>
    intro d g h
    simp only [collectR2] at h
    cases hsp : stepPair sp geo d12 lastRoute r1 r2 with
    | error e => rw [hsp] at h; simp at h
    | ok dg =>
      obtain ⟨d1, g1⟩ := dg
      rw [hsp] at h
      cases hrec : collectR2 sp geo d12 lastRoute r1 rs with
      | error e => rw [hrec] at h; simp at h
      | ok dgs =>
        obtain ⟨ds, gs⟩ := dgs
        rw [hrec] at h
        simp only [Except.ok.injEq, Prod.mk.injEq] at h
        obtain ⟨rfl, rfl⟩ := h
        obtain ⟨hd1, hg1⟩ := stepPair_shape hsp
        obtain ⟨hds, hgs⟩ := ih hrec
        constructor
        · intro q hq
          rcases List.mem_append.mp hq with hq | hq
          · exact hd1 q hq
          · exact hds q hq
        · intro t ht
          rcases List.mem_append.mp ht with ht | ht
          · exact hg1 t ht
          · exact hgs t ht

theorem collectR1_shape {sp : Nat → Nat → Option (List Nat)} {geo : ℚ × ℚ → ℚ × ℚ → ℚ}
    {d12 : Option (ℚ × ℚ) × Option (ℚ × ℚ)} {lastRoute : List Nat}
    {route2 : List (List Nat)} :
    ∀ {l : List (List Nat)} {d : List (List Nat)} {g : List GapT},
      collectR1 sp geo d12 lastRoute route2 l = .ok (d, g) →
      (∀ q ∈ d, q ∈ l) ∧ (∀ t ∈ g, t.2.2 ∈ l) := by
  intro l
  induction l with
  | nil =>
    intro d g h
    simp only [collectR1, Except.ok.injEq, Prod.mk.injEq] at h
    obtain ⟨rfl, rfl⟩ := h
    constructor <;> simp
  | cons r1 rs ih =>
    intro d g h
    simp only [collectR1] at h
    cases hc2 : collectR2 sp geo d12 lastRoute r1 route2 with
    | error e => rw [hc2] at h; simp at h
    | ok dg =>
      obtain ⟨d1, g1⟩ := dg
      rw [hc2] at h
      cases hrec : collectR1 sp geo d12 lastRoute route2 rs with
      | error e => rw [hrec] at h; simp at h
      | ok dgs =>
        obtain ⟨ds, gs⟩ := dgs
        rw [hrec] at h
        simp only [Except.ok.injEq, Prod.mk.injEq] at h
        obtain ⟨rfl, rfl⟩ := h
        obtain ⟨hd1, hg1⟩ := collectR2_shape hc2
        obtain ⟨hds, hgs⟩ := ih hrec
        constructor
        · intro q hq
          rcases List.mem_append.mp hq with hq | hq
          · exact (hd1 q hq) ▸ List.mem_cons_self _ _
          · exact List.mem_cons_of_mem _ (hds q hq)
        · intro t ht
          rcases List.mem_append.mp ht with ht | ht
          · exact (hg1 t ht) ▸ List.mem_cons_self _ _
          · exact List.mem_cons_of_mem _ (hgs t ht)

theorem boundaryStep_shape {sp : Nat → Nat → Option (List Nat)} {geo : ℚ × ℚ → ℚ × ℚ → ℚ}
    {d12 : Option (ℚ × ℚ) × Option (ℚ × ℚ)} {lastRoute : List Nat}
    {route1 : List (List Nat)} {route2opt : Option (List (List Nat))}
    {rd : List (List Nat)} {gaps : List GapT} {uns : List (List Nat)}
    (h : boundaryStep sp geo d12 lastRoute route1 route2opt = .ok (rd, gaps, uns)) :
    (∀ q ∈ rd, q ∈ route1) ∧ (∀ t ∈ gaps, t.2.2 ∈ route1) := by
  cases route2opt with
  | none =>
    simp only [boundaryStep, Except.ok.injEq, Prod.mk.injEq] at h
    obtain ⟨rfl, rfl, rfl⟩ := h
    constructor
    · intro q hq
      exact List.mem_of_mem_filter hq
    · intro t ht
      simp at ht
  | some route2 =>
    simp only [boundaryStep] at h
    split at h
    · simp only [Except.ok.injEq, Prod.mk.injEq] at h
      obtain ⟨rfl, rfl, rfl⟩ := h
      constructor
      · intro q hq
        exact List.mem_of_mem_filter hq
      · intro t ht
        simp at ht
    · cases hc1 : collectR1 sp geo d12 lastRoute route2 route1 with
      | error e => rw [hc1] at h; simp at h
      | ok dg =>
        obtain ⟨ds, gs⟩ := dg
        rw [hc1] at h
        simp only [Except.ok.injEq, Prod.mk.injEq] at h
        obtain ⟨rfl, rfl, rfl⟩ := h
        exact collectR1_shape hc1

theorem reduceGo_confirmada (sp : Nat → Nat → Option (List Nat))
    (geo : ℚ × ℚ → ℚ × ℚ → ℚ) (d12 : Option (ℚ × ℚ) × Option (ℚ × ℚ)) :
    ∀ (ls : List (List (List Nat))) (lastR : List Nat)
      (accC accG accU : List (List Nat)) (res : WayResult),
      reduceGo sp geo d12 ls lastR accC accG accU = .ok res →
      ∀ q ∈ res.confirmada, q ∈ accC ∨ ∃ l ∈ ls, q ∈ l := by
  intro ls
  induction ls with
  | nil =>
    intro lastR accC accG accU res h q hq
    simp only [reduceGo, Except.ok.injEq] at h
    subst h
    exact Or.inl hq
  | cons route1 rest ih =>
    intro lastR accC accG accU res h q hq
    simp only [reduceGo] at h
    cases hb : boundaryStep sp geo d12 lastR route1 rest.head? with
    | error e => rw [hb] at h; simp at h
    | ok triple =>
      obtain ⟨rd, gaps, uns⟩ := triple
      rw [hb] at h
      obtain ⟨hrd, hgaps⟩ := boundaryStep_shape hb
      have mkright : ∀ q, q ∈ route1 → q ∈ accC ∨ ∃ l ∈ route1 :: rest, q ∈ l :=
        fun q hq => Or.inr ⟨route1, List.mem_cons_self _ _, hq⟩
      cases rd with
      | nil =>
        cases gaps with
        | nil =>
          have := ih lastR (accC ++ []) accG (accU ++ uns) res h q hq
          rcases this with hcc | ⟨l, hl, hql⟩
          · rcases List.mem_append.mp hcc with hcc | hcc
            · exact Or.inl hcc
            · simp at hcc
          · exact Or.inr ⟨l, List.mem_cons_of_mem _ hl, hql⟩
        | cons g0 gs =>
          have hmg : firstMinAux (fun t => t.1) g0 gs ∈ g0 :: gs :=
            firstMinAux_mem (fun t => t.1) gs g0
          have hmgr1 : (firstMinAux (fun t => t.1) g0 gs).2.2 ∈ route1 :=
            hgaps _ hmg
          have := ih _ _ _ _ res h q hq
          rcases this with hcc | ⟨l, hl, hql⟩
          · by_cases h500 : (firstMinAux (fun t => t.1) g0 gs).1 < 500
            · rw [if_pos h500] at hcc
              rcases List.mem_append.mp hcc with hcc | hcc
              · exact Or.inl hcc
              · rw [List.mem_singleton] at hcc
                exact mkright q (hcc ▸ hmgr1)
            · rw [if_neg h500] at hcc
              exact Or.inl hcc
          · exact Or.inr ⟨l, List.mem_cons_of_mem _ hl, hql⟩
      | cons r0 rds =>
        have := ih _ _ _ _ res h q hq
        rcases this with hcc | ⟨l, hl, hql⟩
        · rcases List.mem_append.mp hcc with hcc | hcc
          · exact Or.inl hcc
          · exact mkright q (hrd q hcc)
        · exact Or.inr ⟨l, List.mem_cons_of_mem _ hl, hql⟩

theorem mem_buildRoutes {sp : Nat → Nat → Option (List Nat)} {coordOf : Nat → ℚ × ℚ}
    {geo : ℚ × ℚ → ℚ × ℚ → ℚ} {en : Nat → Nat → List String}
    {nodes1 nodes2 : List Conn} {q : List Nat}
    (h : q ∈ buildRoutes sp coordOf geo en nodes1 nodes2) :
    ∃ n1 ∈ nodes1, ∃ n2 ∈ nodes2,
      candRoute sp coordOf geo en (setWayOf nodes1 nodes2) n1 n2 = some q := by
  simp only [buildRoutes, List.mem_flatMap, List.mem_filterMap] at h
  obtain ⟨n1, h1, n2, h2, hc⟩ := h
  exact ⟨n1, h1, n2, h2, hc⟩

theorem candRoute_some {sp : Nat → Nat → Option (List Nat)} {coordOf : Nat → ℚ × ℚ}
    {geo : ℚ × ℚ → ℚ × ℚ → ℚ} {en : Nat → Nat → List String}
    {sW : List Nat} {n1 n2 : Conn} {q : List Nat}
    (h : candRoute sp coordOf geo en sW n1 n2 = some q) :
    sp n1.1 n2.1 = some q ∧ sW.countP (fun x => decide (x ∈ q)) = 2 := by
  simp only [candRoute] at h
  split at h
  · cases hsp : sp n1.1 n2.1 with
    | none => rw [hsp] at h; simp at h
    | some route =>
      rw [hsp] at h
      dsimp only at h
      split at h
      · rename_i hcond
        obtain rfl : route = q := by simpa using h
        exact ⟨rfl, hcond.1⟩
      · simp at h
  · simp at h

/-- C1: every path emitted as a confirmed segment by the per-direction core
of `process_route` was produced by the candidate generation for some pair
of anchor connection nodes `(n1, n2)` of consecutive connection sets, its
anchors are distinct and both lie on the path, and the count of the two
anchor nodes found in the path is exactly 2.  The hypothesis `hsp` states
the contract of `nx.shortest_path`: a returned path is a simple path from
the first to the second argument. -/
theorem stitch_confirmed_anchor_check
    (sp : Nat → Nat → Option (List Nat)) (coordOf : Nat → ℚ × ℚ)
    (geo : ℚ × ℚ → ℚ × ℚ → ℚ) (en : Nat → Nat → List String)
    (way : List (List Conn)) (res : WayResult) (p : List Nat)
    (hsp : ∀ (a b : Nat) (q : List Nat), sp a b = some q →
      q.head? = some a ∧ q.getLast? = some b ∧ q.Nodup)
    (hok : processWay sp coordOf geo en way = .ok res)
    (hp : p ∈ res.confirmada) :
    ∃ pr ∈ way.zip way.tail, ∃ n1 ∈ pr.1, ∃ n2 ∈ pr.2,
      sp n1.1 n2.1 = some p ∧ n1.1 ≠ n2.1 ∧ n1.1 ∈ p ∧ n2.1 ∈ p ∧
      (dedupFS [ n1.1, n2.1 ]).countP (fun x => decide (x ∈ p)) = 2 := by
  simp only [processWay] at hok
  have hmem := reduceGo_confirmada sp geo (staleCoords coordOf (way.zip way.tail))
    ((way.zip way.tail).map (fun pr => buildRoutes sp coordOf geo en pr.1 pr.2))
    [] [] [] [] res hok p hp
  rcases hmem with h | ⟨l, hl, hpl⟩
  · simp at h
  · obtain ⟨pr, hpr, rfl⟩ := List.mem_map.mp hl
    obtain ⟨n1, h1, n2, h2, hc⟩ := mem_buildRoutes hpl
    obtain ⟨hspq, hcount⟩ := candRoute_some hc
    obtain ⟨hhead, hlast, hnd⟩ := hsp _ _ _ hspq
    have hmem1 : n1.1 ∈ p := mem_of_head?Nat hhead
    have hmem2 : n2.1 ∈ p := mem_of_getLast?Nat p n2.1 hlast
    have hne : n1.1 ≠ n2.1 := by
      intro heq
      rw [heq] at hhead
      have hsingle := nodup_head_last_eq hnd hhead hlast
      have hin : n2.1 ∈ setWayOf pr.1 pr.2 :=
        mem_dedupFS.mpr (List.mem_map.mpr ⟨n2, List.mem_append.mpr (Or.inr h2), rfl⟩)
      have hnodup : (setWayOf pr.1 pr.2).Nodup := nodup_dedupFS _
      have hone := countP_singleton_mem hnodup hin
      rw [hsingle] at hcount
      rw [hone] at hcount
      exact absurd hcount (by norm_num)
    exact ⟨pr, hpr, n1, h1, n2, h2, hspq, hne, hmem1, hmem2,
      countP_pair_mem hne hmem1 hmem2⟩

/-- Edge-name lookup with no named edges (internal edges of the example
paths are never inspected anyway, since all example paths have length 2). -/
def en0 : Nat → Nat → List String := fun _ _ => []

/-- Node coordinates for the chain example: node n sits at (n, 0). -/
def coordW : Nat → ℚ × ℚ := fun n => ((n : ℚ), 0)

/-- Shortest-path table for the chain example: 1 → 2 → 3. -/
def spW (a b : Nat) : Option (List Nat) :=
  if a = 1 ∧ b = 2 then some [ 1, 2 ]
  else if a = 2 ∧ b = 3 then some [ 2, 3 ] else none

/-- The chain example leg: three consecutive single-node connection sets. -/
def wayW : List (List Conn) := [ [ (1, sA, sB) ], [ (2, sA, sB) ], [ (3, sB, sA) ] ]

theorem spW_spec : ∀ (a b : Nat) (q : List Nat), spW a b = some q →
    q.head? = some a ∧ q.getLast? = some b ∧ q.Nodup := by
  intro a b q h
  simp only [spW] at h
  split at h
  · rename_i h1
    obtain ⟨rfl, rfl⟩ := h1
    obtain rfl : [ 1, 2 ] = q := by simpa using h
    exact ⟨rfl, rfl, by decide⟩
  · split at h
    · rename_i h2
      obtain ⟨rfl, rfl⟩ := h2
      obtain rfl : [ 2, 3 ] = q := by simpa using h
      exact ⟨rfl, rfl, by decide⟩
    · simp at h

theorem wayW_eval :
    processWay spW coordW geoMan en0 wayW = .ok ⟨[ [ 1, 2 ], [ 2, 3 ] ], [], []⟩ := by
  norm_num [processWay, wayW, staleCoords, buildRoutes, setWayOf, dedupFS, dedupFSAux,
    candRoute, spW, coordW, geoMan, ratAbs, en0, conStreet, reduceGo,
    boundaryStep, collectR1, collectR2, stepPair, chainCond, firstMinAux,
    List.zip_cons_cons, List.filter_cons, List.range', List.filterMap_cons,
    List.countP_cons, List.countP_nil, List.cons_ne_nil, List.getLast?_cons_cons,
    List.getLast?_singleton, List.head?_cons]

/-- C1 witness: in the chain example the confirmed segment [1, 2] comes from
the anchor pair (1, 2), whose two anchor nodes are found in the path with
count exactly 2. -/
theorem stitch_confirmed_anchor_check_witness :
    (∀ (a b : Nat) (q : List Nat), spW a b = some q →
      q.head? = some a ∧ q.getLast? = some b ∧ q.Nodup) ∧
    processWay spW coordW geoMan en0 wayW = .ok ⟨[ [ 1, 2 ], [ 2, 3 ] ], [], []⟩ ∧
    ∃ pr ∈ wayW.zip wayW.tail, ∃ n1 ∈ pr.1, ∃ n2 ∈ pr.2,
      spW n1.1 n2.1 = some [ 1, 2 ] ∧ n1.1 ≠ n2.1 ∧
      n1.1 ∈ ([ 1, 2 ] : List Nat) ∧ n2.1 ∈ ([ 1, 2 ] : List Nat) ∧
      (dedupFS [ n1.1, n2.1 ]).countP (fun x => decide (x ∈ ([ 1, 2 ] : List Nat))) = 2 :=
  ⟨spW_spec, wayW_eval,
    stitch_confirmed_anchor_check spW coordW geoMan en0 wayW
      ⟨[ [ 1, 2 ], [ 2, 3 ] ], [], []⟩ [ 1, 2 ] spW_spec wayW_eval (by simp)⟩

/-- The gap example leg: connection sets {1}, {2, 4}, {3}. -/
def wayG : List (List Conn) := [ [ (1, sA, sB) ], [ (2, sA, sB), (4, sA, sB) ], [ (3, sB, sA) ] ]

/-- Shortest-path table for the abort example: no path from 2 to 4. -/
def sp4 (a b : Nat) : Option (List Nat) :=
  if a = 1 ∧ b = 2 then some [ 1, 2 ]
  else if a = 4 ∧ b = 3 then some [ 4, 3 ] else none

/-- C4: processing the leg `wayG` aborts with the uncaught
`networkx.NetworkXNoPath` of the gap-bridge `shortest_path(graph, r1[-1],
r2[0])` call: the candidate paths [1,2] and [4,3] of the two boundaries do
not chain (2 ≠ 4) and the graph has no path 2 → 4, so the reduction loop
raises instead of returning an all-unconfirmed RouteVariant. -/
theorem gap_bridge_no_path_aborts :
    processWay sp4 coordW geoMan en0 wayG = .error .noPathFound := by
  norm_num [processWay, wayG, staleCoords, buildRoutes, setWayOf, dedupFS, dedupFSAux,
    candRoute, sp4, coordW, geoMan, ratAbs, en0, conStreet, reduceGo,
    boundaryStep, collectR1, collectR2, stepPair, chainCond, firstMinAux,
    List.zip_cons_cons, List.filter_cons, List.range', List.filterMap_cons,
    List.countP_cons, List.countP_nil, List.cons_ne_nil, List.getLast?_cons_cons,
    List.getLast?_singleton, List.head?_cons]

/-- Shortest-path table for the far-bridge example: adds the bridge 2 → 4. -/
def sp3 (a b : Nat) : Option (List Nat) :=
  if a = 1 ∧ b = 2 then some [ 1, 2 ]
  else if a = 4 ∧ b = 3 then some [ 4, 3 ]
  else if a = 2 ∧ b = 4 then some [ 2, 4 ] else none

/-- Coordinates for the far-bridge example (in meters along one axis):
node 1 at 0, node 2 at 100, node 4 at 800, node 3 at 900. -/
def coord3 : Nat → ℚ × ℚ := fun n =>
  if n = 1 then (0, 0) else if n = 2 then (100, 0)
  else if n = 4 then (800, 0) else (900, 0)

/-- C3: a gap segment [2, 4] is inserted although the geodesic distance
between the bridge's own endpoints (nodes 2 and 4) is 700 m ≥ 500 m: the
500 m check is evaluated on the stale loop variables `data1`/`data2`
(nodes 4 and 3, 100 m apart), not on the bridged endpoints. -/
theorem gap_inserted_with_far_bridge :
    processWay sp3 coord3 geoMan en0 wayG =
      .ok ⟨[ [ 1, 2 ], [ 4, 3 ] ], [ [ 2, 4 ] ], []⟩ ∧
    500 ≤ geoMan (coord3 2) (coord3 4) := by
  constructor
  · norm_num [processWay, wayG, staleCoords, buildRoutes, setWayOf, dedupFS, dedupFSAux,
      candRoute, sp3, coord3, geoMan, ratAbs, en0, conStreet, reduceGo,
      boundaryStep, collectR1, collectR2, stepPair, chainCond, firstMinAux,
      List.zip_cons_cons, List.filter_cons, List.range', List.filterMap_cons,
      List.countP_cons, List.countP_nil, List.cons_ne_nil, List.getLast?_cons_cons,
      List.getLast?_singleton, List.head?_cons]
  · norm_num [geoMan, coord3, ratAbs]

end Mov
